import Mathlib

/-!
Verification of the AGBNP3 implicit-solvent core (libagbnp3.c, agbnp3_utils.c).

The development shallowly embeds the C functions named in the claims as Lean
definitions.  C `float`/`double` arithmetic is modelled as exact real (or, for
the purely rational kernels, rational) arithmetic; machine constants coming
from the standard C library (`FLT_MIN`) are modelled by their IEEE values.
Constants whose values live in the repository's private header
(`agbnp3_private.h`, not part of the sources) are carried as parameters, since
no claim depends on their numeric values.
-/

namespace AGBNP3

/-- Return codes `AGBNP_OK` / `AGBNP_ERR` of the C library. -/
inductive Retcode where
  | ok : Retcode
  | err : Retcode
deriving DecidableEq, Repr

/-- IEEE-754 single precision `FLT_MIN` (float.h): smallest positive
normalized float, `2 ^ (-126)`. -/
noncomputable def fltMin : ℝ := 2 ^ (-126 : ℤ)

/-- The quintic switching function `agbnp3_pol_switchfunc` (libagbnp3.c,
lines 1422-1447): goes smoothly from 0 at `xa` to 1 at `xb`.  Returns the
value together with the first and second derivative outputs `fp`, `fpp`. -/
noncomputable def pol_switchfunc (x xa xb : ℝ) : ℝ × ℝ × ℝ :=
  if x > xb then (1, 0, 0)
  else if x < xa then (0, 0, 0)
  else
    let d := 1 / (xb - xa)
    let u := (x - xa) * d
    let u2 := u * u
    let u3 := u * u2
    (u3 * (10 - 15 * u + 6 * u2),
     d * 30 * u2 * (1 - 2 * u + u2),
     d * d * 60 * u * (1 - 3 * u + 2 * u2))

/-- The volume switching function `agbnp3_swf_vol3` (libagbnp3.c, lines
1450-1470): identity above `b`, zero below `a`, blended by
`agbnp3_pol_switchfunc` in between.  Returns `(f, fp, fpp)`. -/
noncomputable def swf_vol3 (x a b : ℝ) : ℝ × ℝ × ℝ :=
  if x > b then (x, 1, 0)
  else if x < a then (0, 0, 0)
  else
    let s := pol_switchfunc x a b
    (s.1 * x, s.1 + x * s.2.1, 2 * s.2.1 + x * s.2.2)

/-- Floor constant `a = 0.02` of the inverse-Born-radius filter
(static const in `agbnp3_swf_invbr`; the maximum Born radius is `1/a = 50`). -/
noncomputable def invbrA : ℝ := 0.02

/-- The inverse-Born-radius switching function `agbnp3_swf_invbr`
(libagbnp3.c, lines 1488-1502): for `beta < 0` it returns the floor constant
`a = 0.02` (with derivative 0), otherwise `sqrt (a^2 + beta^2)` (with
derivative `beta / sqrt (a^2 + beta^2)`).  Returns `(value, fp)`. -/
noncomputable def swf_invbr (beta : ℝ) : ℝ × ℝ :=
  if beta < 0 then (invbrA, 0)
  else
    let t := Real.sqrt (invbrA * invbrA + beta * beta)
    (t, beta / t)

/-- The per-atom Born radius computed by `agbnp3_born_radii`
(agbnp3_utils.c, lines 585-594) from the aggregated raw inverse-radius sum
`beta`: the filtered inverse radius is `agbnp3_swf_invbr beta` and the Born
radius is its reciprocal (`br_h[iat] = 1./br1_h[iat]`). -/
noncomputable def bornRadius (beta : ℝ) : ℝ := 1 / (swf_invbr beta).1

/-- A 3-vector, modelling the C arrays `c[3]`, `x[n][3]`. -/
def Vec3 : Type := Fin 3 → ℝ

/-- Merged-Gaussian parameters (`GParm` struct of libagbnp3.c): exponent `a`,
prefactor `p`, center `c[3]`. -/
structure GParm where
  a : ℝ
  p : ℝ
  c : Vec3

/-- First-derivative outputs of `agbnp3_ogauss_incremental`: the positional
derivative array `dr[i][3]` and the radius-derivative array `dR[i]`, written
only for indices `i < n` (entries beyond `n` are modelled as 0 = unwritten). -/
structure OgaussDerivs where
  dr : ℕ → Vec3
  dR : ℕ → ℝ

/-- Outputs of one `agbnp3_ogauss_incremental` call: the merged Gaussian
parameters written through `*an`, `*pn`, `cn`, the value stored in `*sr1`
(default, non-`AGBNP3_SRM` build: the unswitched volume), the returned
(switched or zeroed) volume, and the derivative outputs; `derivs = none`
models the case in which the caller-supplied derivative arrays are left
unwritten. -/
structure OgaussOut where
  an : ℝ
  pn : ℝ
  cn : Vec3
  sr1 : ℝ
  ret : ℝ
  derivs : Option OgaussDerivs

/-- New Gaussian exponent of the incremental merge (libagbnp3.c, line 4975):
the sum of the previous blob's exponent and the new atom's exponent. -/
noncomputable def ogaussDelta (n : ℕ) (a : ℕ → ℝ) (anm1 : ℝ) : ℝ :=
  anm1 + a (n - 1)

/-- New Gaussian center of the incremental merge (libagbnp3.c, lines
4979-4981): the exponent-weighted average of the old center and the new
atom's position, as computed by the source (`deltai * (anm1*cnm1 + a*x)`). -/
noncomputable def ogaussCn (n : ℕ) (x : ℕ → Vec3) (a : ℕ → ℝ) (anm1 : ℝ)
    (cnm1 : Vec3) : Vec3 :=
  fun i => (1 / ogaussDelta n a anm1) * (anm1 * cnm1 i + a (n - 1) * x (n - 1) i)

/-- Squared distance between the old blob center and the new atom's position
(libagbnp3.c, lines 4984-4987). -/
noncomputable def ogaussD2 (n : ℕ) (x : ℕ → Vec3) (cnm1 : Vec3) : ℝ :=
  (x (n - 1) 0 - cnm1 0) * (x (n - 1) 0 - cnm1 0) +
  (x (n - 1) 1 - cnm1 1) * (x (n - 1) 1 - cnm1 1) +
  (x (n - 1) 2 - cnm1 2) * (x (n - 1) 2 - cnm1 2)

/-- New Gaussian prefactor of the incremental merge (libagbnp3.c, lines
4988-4994): `pnm1 * p[n-1] * exp (-anm1*a[n-1]*d2*deltai)`. -/
noncomputable def ogaussPn (n : ℕ) (x : ℕ → Vec3) (a p : ℕ → ℝ)
    (anm1 pnm1 : ℝ) (cnm1 : Vec3) : ℝ :=
  pnm1 * p (n - 1) *
    Real.exp (-(anm1 * a (n - 1) * ogaussD2 n x cnm1 * (1 / ogaussDelta n a anm1)))

/-- Unswitched Gaussian overlap volume (libagbnp3.c, lines 4997-4998):
`vol = pn * u * sqrt u` with `u = pi * deltai`. -/
noncomputable def ogaussVol (n : ℕ) (x : ℕ → Vec3) (a p : ℕ → ℝ)
    (anm1 pnm1 : ℝ) (cnm1 : Vec3) : ℝ :=
  ogaussPn n x a p anm1 pnm1 cnm1 * (Real.pi * (1 / ogaussDelta n a anm1)) *
    Real.sqrt (Real.pi * (1 / ogaussDelta n a anm1))

/-- Switched overlap volume of the default (non-`AGBNP3_SRM`) build
(libagbnp3.c, line 5002): `volp = swf_vol3 (vol, volmina, volminb)`. -/
noncomputable def ogaussVolp (n : ℕ) (x : ℕ → Vec3) (a p : ℕ → ℝ)
    (anm1 pnm1 : ℝ) (cnm1 : Vec3) (volmina volminb : ℝ) : ℝ :=
  (swf_vol3 (ogaussVol n x a p anm1 pnm1 cnm1) volmina volminb).1

/-- First derivatives written by `agbnp3_ogauss_incremental` when the caller
passes non-NULL `dr`, `dR` (libagbnp3.c, lines 5045-5052 and 5086-5092):
the raw derivative of the unswitched volume, scaled at the end by the switch
derivative `fp`.  The second-derivative block `d2rR` is not modelled: every
call site relevant to the claims passes NULL for it. -/
noncomputable def ogaussDerivCalc (n : ℕ) (x : ℕ → Vec3) (a p r : ℕ → ℝ)
    (anm1 pnm1 : ℝ) (cnm1 : Vec3) (volmina volminb : ℝ) : OgaussDerivs :=
  let vol := ogaussVol n x a p anm1 pnm1 cnm1
  let fp := (swf_vol3 vol volmina volminb).2.1
  let cn := ogaussCn n x a anm1 cnm1
  let deltai := 1 / ogaussDelta n a anm1
  let drRaw : ℕ → Vec3 := fun i j => -2 * a i * vol * (x i j - cn j)
  { dr := fun i => if i < n then (fun j => fp * drRaw i j) else fun _ => 0
    dR := fun i =>
      if i < n then
        let d2 := drRaw i 0 * drRaw i 0 + drRaw i 1 * drRaw i 1 +
          drRaw i 2 * drRaw i 2
        fp * ((3 * (a i * vol) * deltai + 0.5 * d2 / (a i * vol)) / r i)
      else 0 }

/-- The incremental Gaussian overlap `agbnp3_ogauss_incremental`
(libagbnp3.c, lines 4938-5204, default non-`AGBNP3_SRM`, non-PBC build).
For `n < 2` the C function returns 0.0 without writing any output (`none`).
Otherwise it writes the merged parameters `an`, `pn`, `cn` and `sr1 = vol`,
and returns the switched volume; if the switched volume underflows
(`volp < FLT_MIN`) it returns exactly 0 and leaves the derivative arrays
unwritten; otherwise the derivative arrays are filled when requested
(`wantDerivs` models `dr` and `dR` being non-NULL). -/
noncomputable def ogaussIncremental (n : ℕ) (x : ℕ → Vec3) (a p r : ℕ → ℝ)
    (anm1 pnm1 : ℝ) (cnm1 : Vec3) (volmina volminb : ℝ)
    (wantDerivs : Bool) : Option OgaussOut :=
  if n < 2 then none
  else
    let vol := ogaussVol n x a p anm1 pnm1 cnm1
    let volp := ogaussVolp n x a p anm1 pnm1 cnm1 volmina volminb
    some
      { an := ogaussDelta n a anm1
        pn := ogaussPn n x a p anm1 pnm1 cnm1
        cn := ogaussCn n x a anm1 cnm1
        sr1 := vol
        ret := if volp < fltMin then 0 else volp
        derivs :=
          if volp < fltMin then none
          else if wantDerivs then
            some (ogaussDerivCalc n x a p r anm1 pnm1 cnm1 volmina volminb)
          else none }

/-- Value returned by `agbnp3_ogauss_incremental` to its caller (0.0 when no
output structure was produced, i.e. in the `n < 2` early return). -/
noncomputable def ogaussRet : Option OgaussOut → ℝ
  | none => 0
  | some o => o.ret

/-! ### Cubic-spline evaluation (agbnp3_utils.c)

The spline kernels use only rational arithmetic, so they are embedded over ℚ
and stay executable. -/

/-- Truncation toward zero, the semantics of the C cast `int k = xh`. -/
def ctrunc (q : ℚ) : ℤ :=
  if q < 0 then -(⌊-q⌋) else ⌊q⌋

/-- The scalar cubic-spline evaluator `agbnp3_cspline_interpolate`
(agbnp3_utils.c, lines 159-182).  `n` is the node count of the table, `y` the
node ordinates, `y2` the second-derivative coefficients.  When the bracketing
index `k` exceeds `n - 2` the function returns `(0, 0)` without touching the
table. -/
def cspline_interpolate (x dx : ℚ) (n : ℕ) (y y2 : ℕ → ℚ) : ℚ × ℚ :=
  let dxinv := 1 / dx
  let dp1 := dx / 6
  let dp2 := dx * dp1
  let xh := x * dxinv
  let k : ℤ := ctrunc xh
  if k > (n : ℤ) - 2 then (0, 0)
  else
    let kf : ℚ := (k : ℚ)
    let a := (kf + 1) - xh
    let a2 := a * a
    let b := xh - kf
    let b2 := b * b
    let yk := y k.toNat
    let yk1 := y (k.toNat + 1)
    let y2k := y2 k.toNat
    let y2k1 := y2 (k.toNat + 1)
    (a * yk + b * yk1 + ((a2 * a - a) * y2k + (b2 * b - b) * y2k1) * dp2,
     (yk1 - yk) * dxinv - ((3 * a2 - 1) * y2k + (3 * b2 - 1) * y2k1) * dp1)

/-- One-dimensional spline table (`C1Table` of agbnp3_private.h): node count,
spacing `dx`, its stored inverse `dxinv`, node ordinates `y` and
second-derivative coefficients `y2`. -/
structure C1Table where
  n : ℕ
  dx : ℚ
  dxinv : ℚ
  y : ℕ → ℚ
  y2 : ℕ → ℚ

/-- Loop body of the vectorized kernel `agbnp3_cspline_interpolate_soa`
(agbnp3_utils.c, lines 209-224), evaluated at one element: inputs are the
gathered bracketing index `kf = kv[i]`, the scaled argument `xh[i]`, the
spacing `dx`, and the gathered node data `yk, ypk, y2k, y2pk`. -/
def cspline_interpolate_soa_elem (kf xh dx ypk yk y2pk y2k : ℚ) : ℚ × ℚ :=
  let dp1 := dx / 6
  let dp2 := dx * dp1
  let dxinv := 1 / dx
  let a := (kf + 1) - xh
  let a2 := a * a
  let b := xh - kf
  let b2 := b * b
  (a * yk + b * ypk + ((a2 * a - a) * y2k + (b2 * b - b) * y2pk) * dp2,
   (ypk - yk) * dxinv - ((3 * a2 - 1) * y2k + (3 * b2 - 1) * y2pk) * dp1)

/-- One element of the vectorized structure-of-arrays interpolation
`agbnp3_interpolate_ctablef42d_soa` (agbnp3_utils.c, lines 272-307) after the
table for the element has been resolved from the hash: the gather loop zeroes
the four node values when the bracketing index `k` exceeds `n - 2`, then the
kernel `agbnp3_cspline_interpolate_soa` is applied (the source applies it with
the `dx` of the table resolved in the gather loop). -/
def interpolate_ctablef42d_soa_elem (t : C1Table) (x : ℚ) : ℚ × ℚ :=
  let xh := x * t.dxinv
  let k : ℤ := ctrunc xh
  let kf : ℚ := (k : ℚ)
  if k > (t.n : ℤ) - 2 then
    cspline_interpolate_soa_elem kf xh t.dx 0 0 0 0
  else
    cspline_interpolate_soa_elem kf xh t.dx
      (t.y (k.toNat + 1)) (t.y k.toNat) (t.y2 (k.toNat + 1)) (t.y2 k.toNat)

/-! ### Hash table for the spline-table cache (agbnp3_utils.c) -/

/-- Hash table of the spline cache (`HTable`): power-of-two size `hsize`,
mask `hmask = hsize - 1`, probe stride `hjump`, and the slot array `key`
(with `-1` marking an empty slot, as set by `agbnp3_h_init`). -/
structure HTable where
  hsize : ℕ
  hmask : ℕ
  hjump : ℕ
  key : ℕ → ℤ

/-- The table produced by `agbnp3_h_init` (agbnp3_utils.c, lines 695-701):
every slot of the given table is set to `-1`. -/
def hInit (ht : HTable) : HTable :=
  { ht with key := fun _ => -1 }

/-- The probe loop shared by `agbnp3_h_enter` and `agbnp3_h_find`
(agbnp3_utils.c, lines 714-717 and 733-736): starting from slot `k`, advance
by `hjump` (masked by `hmask`) while the current slot is occupied
(`key[k] >= 0`) by a different key.  The C loop has no bound; under the
conditions of the claims (stride 1, at least one empty slot) it stops within
`hsize` probes, so a fuel of `hsize` makes the embedding exact. -/
def hProbe (key : ℕ → ℤ) (hmask hjump : ℕ) (keyij : ℕ) : ℕ → ℕ → ℕ
  | 0, k => k
  | fuel + 1, k =>
    if 0 ≤ key k ∧ key k ≠ (keyij : ℤ) then
      hProbe key hmask hjump keyij fuel ((k + hjump) &&& hmask)
    else k

/-- The slot search of `agbnp3_h_enter` / `agbnp3_h_find`: probe from the
masked key with fuel `hsize`. -/
def hSlot (ht : HTable) (keyij : ℕ) : ℕ :=
  hProbe ht.key ht.hmask ht.hjump keyij ht.hsize (keyij &&& ht.hmask)

/-- `agbnp3_h_enter` (agbnp3_utils.c, lines 704-720): find the key's slot (or
the first empty slot on its probe path), store the key there, and return the
slot together with the updated table.  The NULL-table guards of the C code
have no counterpart in the embedding. -/
def hEnter (ht : HTable) (keyij : ℕ) : ℕ × HTable :=
  let k := hSlot ht keyij
  (k, { ht with key := Function.update ht.key k (keyij : ℤ) })

/-- `agbnp3_h_find` (agbnp3_utils.c, lines 723-739): probe for the key and
return the slot, or `-1` when the probe stopped at an empty slot. -/
def hFind (ht : HTable) (keyij : ℕ) : ℤ :=
  let k := hSlot ht keyij
  if ht.key k < 0 then -1 else (k : ℤ)

/-- Stop condition of the hash probe loops: the C loops continue while
`key[k] >= 0 && key[k] != keyij`. -/
def probeStop (key : ℕ → ℤ) (keyij : ℕ) (k : ℕ) : Prop :=
  ¬(0 ≤ key k ∧ key k ≠ (keyij : ℤ))

/-! ### Neighbor-list construction (libagbnp3.c)

The distance tests and the sort use only rational arithmetic, so this part is
embedded over ℚ. -/

/-- Squared distance between atoms `i` and `j` as computed in
`agbnp3_neighbor_lists` (libagbnp3.c, lines 5274-5277). -/
def dist2 (x y z : ℕ → ℚ) (i j : ℕ) : ℚ :=
  (x j - x i) * (x j - x i) + (y j - y i) * (y j - y i) +
    (z j - z i) * (z j - z i)

/-- The near-neighbor test of `agbnp3_neighbor_lists` (libagbnp3.c, lines
5278-5280): `d2 < u*u` with `u = (r[iat]+r[jat]) * nboffset`. -/
def isNear (x y z r : ℕ → ℚ) (nboffset : ℚ) (iat jat : ℕ) : Bool :=
  dist2 x y z iat jat <
    ((r iat + r jat) * nboffset) * ((r iat + r jat) * nboffset)

/-- Near neighbors of heavy atom `iat` in collection order: the loop
`for(jat=iat+1; jat<nheavyat; jat++)` of `agbnp3_neighbor_lists` keeps the
atoms passing the near test, in increasing order of `jat`. -/
def collectedNeighbors (nheavyat iat : ℕ) (x y z r : ℕ → ℚ)
    (nboffset : ℚ) : List ℕ :=
  (List.range' (iat + 1) (nheavyat - (iat + 1))).filter
    (isNear x y z r nboffset iat)

/-- The qsort comparator `agbnp3_fcompare` (libagbnp3.c, lines 4754-4772):
primary key the stored value (`fextval`, here `val`), secondary key the index
itself. -/
def fcompare (val : ℕ → ℚ) (i j : ℕ) : ℤ :=
  if val i < val j then -1
  else if val i > val j then 1
  else if i < j then -1
  else if i > j then 1
  else 0

/-- The index sort `agbnp3_fsortindx` (libagbnp3.c, lines 4775-4780):
sort the indices `0 .. n-1` so that `val` is ascending, ties broken by the
index (the comparator `agbnp3_fcompare` is a total order, so qsort's output
is the unique sorted permutation, here produced by `mergeSort`). -/
def fsortindx (n : ℕ) (val : ℕ → ℚ) : List ℕ :=
  (List.range n).mergeSort (fun i j => decide (fcompare val i j ≤ 0))

/-- The near-neighbor sublist of heavy atom `iat` as left by
`agbnp3_neighbor_lists` (libagbnp3.c, lines 5260-5300): the collected near
neighbors, reordered by `agbnp3_fsortindx` on the stored squared distances
(`nl_r2v`) followed by `agbnp3_nblist_reorder`
(`neighl[iat][j] = collected[indx[j]]`). -/
def nearList (nheavyat iat : ℕ) (x y z r : ℕ → ℚ) (nboffset : ℚ) : List ℕ :=
  let coll := collectedNeighbors nheavyat iat x y z r nboffset
  let val : ℕ → ℚ := fun m => dist2 x y z iat (coll.getD m 0)
  (fsortindx coll.length val).map (fun m => coll.getD m 0)

/-! ### Water-site free volume (libagbnp3.c, agbnp3_ws_free_volume_of1)

The constants `KFC`, `PFC`, `AGBNP_MIN_VOLA/B` and `AGBNP_MAX_OVERLAP_LEVEL`
live in the private header that is not part of the sources; they are carried
as fields of `WSData`.  No claim depends on their values. -/

/-- Water-site pseudo-atom fields used by the free-volume computation
(struct `WSat`): position, radius, nominal spherical volume. -/
structure WSat where
  pos : Vec3
  r : ℝ
  volume : ℝ

/-- Fixed data of one `agbnp3_ws_free_volume_of1` run: the site's neighbor
list (`nn` entries of `nlist`), heavy-atom coordinates and radii, and the
build-time constants. -/
structure WSData where
  nn : ℕ
  nlist : ℕ → ℕ
  pos : ℕ → Vec3
  r : ℕ → ℝ
  kfws : ℝ
  pfws : ℝ
  volmina : ℝ
  volminb : ℝ
  maxLevel : ℕ

/-- Mutable state of the depth-first overlap walk in
`agbnp3_ws_free_volume_of1`: the current overlap order, the per-level
neighbor cursors `gnlist`, the per-level merged Gaussian parameters
`gparams`, and the accumulated free volume. -/
structure WSVState where
  order : ℕ
  gnlist : ℕ → ℕ
  gparams : ℕ → GParm
  freeVolume : ℝ

/-- The alternating inclusion-exclusion coefficients `volpcoeff` set up at
libagbnp3.c, lines 4497-4502: `volpcoeff[order-1] = sign` with `sign`
starting at `+1` for order 1 and flipping at each order. -/
noncomputable def volpcoeff : ℕ → ℝ
  | 0 => 1
  | k + 1 => -volpcoeff k

/-- The `agbnp3_ogauss_incremental` call made by the loop body of
`agbnp3_ws_free_volume_of1` (libagbnp3.c, lines 4588-4605): the new atom is
`nlist[gnlist[order-1]]` with Gaussian exponent `kf_ws / r^2` and prefactor
`pf_ws`, merged onto `gparams[order-2]`; all derivative outputs are NULL.
The overlap function reads only the entry at index `order - 1` of its array
arguments, so constant argument functions give the exact call. -/
noncomputable def wsOverlap (dat : WSData) (st : WSVState) : Option OgaussOut :=
  let jat := dat.nlist (st.gnlist (st.order - 1))
  let prev := st.gparams (st.order - 2)
  ogaussIncremental st.order (fun _ => dat.pos jat)
    (fun _ => dat.kfws / (dat.r jat * dat.r jat)) (fun _ => dat.pfws)
    (fun _ => dat.r jat) prev.a prev.p prev.c dat.volmina dat.volminb false

/-- The overlap volume `gvol` computed by the loop body. -/
noncomputable def wsGvol (dat : WSData) (st : WSVState) : ℝ :=
  ogaussRet (wsOverlap dat st)

/-- One iteration of the main loop of `agbnp3_ws_free_volume_of1`
(libagbnp3.c, lines 4586-4625, before the backtracking loop): compute the
overlap of the current chain, store the merged parameters at the current
level, and, when the volume is above `FLT_MIN` (`altw = 1.0` in the source)
and the order is below `AGBNP_MAX_OVERLAP_LEVEL`, accumulate
`volpcoeff[order-1] * gvol` into the free volume and descend one level;
otherwise advance to the next neighbor at the current level. -/
noncomputable def wsStep (dat : WSData) (st : WSVState) : WSVState :=
  let res := wsOverlap dat st
  let gvol := ogaussRet res
  let gparams1 :=
    match res with
    | none => st.gparams
    | some o => Function.update st.gparams (st.order - 1) ⟨o.an, o.pn, o.cn⟩
  if fltMin < gvol ∧ st.order < dat.maxLevel then
    { order := st.order + 1
      gnlist := Function.update st.gnlist st.order (st.gnlist (st.order - 1) + 1)
      gparams := gparams1
      freeVolume := st.freeVolume + volpcoeff (st.order - 1) * gvol }
  else
    { st with
      gparams := gparams1
      gnlist := Function.update st.gnlist (st.order - 1)
        (st.gnlist (st.order - 1) + 1) }

/-- The backtracking loop of `agbnp3_ws_free_volume_of1` (libagbnp3.c, lines
4632-4635): while the cursor at the current level is exhausted, pop one level
and advance the cursor there.  The order strictly decreases, so a fuel of
the current order makes the embedding exact. -/
noncomputable def wsBacktrack (nn : ℕ) : ℕ → WSVState → WSVState
  | 0, st => st
  | fuel + 1, st =>
    if 1 < st.order ∧ nn ≤ st.gnlist (st.order - 1) then
      wsBacktrack nn fuel
        { st with
          order := st.order - 1
          gnlist := Function.update st.gnlist (st.order - 2)
            (st.gnlist (st.order - 2) + 1) }
    else st

/-- The main loop `while(nn && order>1)` of `agbnp3_ws_free_volume_of1`
(libagbnp3.c, lines 4586-4637), with explicit fuel. -/
noncomputable def wsLoop (dat : WSData) : ℕ → WSVState → WSVState
  | 0, st => st
  | fuel + 1, st =>
    if dat.nn ≠ 0 ∧ 1 < st.order then
      wsLoop dat fuel
        (wsBacktrack dat.nn (wsStep dat st).order (wsStep dat st))
    else st

/-- Initial state of the walk (libagbnp3.c, lines 4504-4517 and 4583-4584):
the free volume starts at the site's nominal volume `wsat->volume`, level 0
holds the site's own Gaussian (`kf_ws / r^2`, `pf_ws`, site position), the
order starts at 2 with cursor `gnlist[1] = 0`. -/
noncomputable def wsInit (dat : WSData) (w : WSat) : WSVState :=
  { order := 2
    gnlist := Function.update (fun _ => 0) 1 0
    gparams := Function.update (fun _ => ⟨0, 0, fun _ => 0⟩) 0
      ⟨dat.kfws / (w.r * w.r), dat.pfws, w.pos⟩
    freeVolume := w.volume }

/-- The walk of `agbnp3_ws_free_volume_of1` for a site whose neighbor list is
already in place (the `init = 0` path), with explicit fuel: run the loop and
return the final state together with the function's return code — the C
function always returns `AGBNP_OK`, it has no error path. -/
noncomputable def wsFreeVolumeOf1 (dat : WSData) (w : WSat) (fuel : ℕ) :
    WSVState × Retcode :=
  (wsLoop dat fuel (wsInit dat w), Retcode.ok)

/-! ### Water-site placement for a polar hydrogen (libagbnp3.c) -/

/-- A 3x3 matrix of position derivatives (`der1[3][3]` / `der2[3][3]`). -/
def Mat3 : Type := Fin 3 → Fin 3 → ℝ

/-- The geometric placement `agbnp3_place_wat_hydrogen` (libagbnp3.c, lines
2790-2825): place a water site at distance `d` from the donor `xd` along the
donor-to-hydrogen direction, and produce the derivative blocks of the site's
position with respect to the hydrogen (`der1`) and the donor (`der2`).
Output: `(xw, der1, der2)`. -/
noncomputable def place_wat_hydrogen (xd xh : Vec3) (d : ℝ) :
    Vec3 × Mat3 × Mat3 :=
  let dx : Vec3 := fun i => xh i - xd i
  let d2inv := 1 / (dx 0 * dx 0 + dx 1 * dx 1 + dx 2 * dx 2)
  let dinv := Real.sqrt d2inv
  let w := d * dinv
  let xw : Vec3 := fun i => xd i + w * dx i
  let w2 := w * d2inv
  let der1 : Mat3 := fun i j =>
    -(w2 * dx i * dx j) + if i = j then w else 0
  let der2 : Mat3 := fun i j =>
    w2 * dx i * dx j + if i = j then 1 - w else 0
  (xw, der1, der2)

/-! ### Water-site creation dispatch (libagbnp3.c, agbnp3_create_ws_ofatom)

The hydrogen-bond classes are named constants of the private header; they are
modelled as an inductive type, with `other` covering the `default` case of
the C switch.  The per-class creator functions (except the trigonal
out-of-plane one, whose failure guard decides claim C8) contribute to the
dispatcher only through success/failure and a site count, so the dispatcher
takes their outcomes as inputs: `none` models a creator call that returned
`AGBNP_ERR`, `some m` a call that succeeded writing `*nws = m`. -/

/-- Hydrogen-bond geometric classes (`AGBNP_HB_*` of the private header). -/
inductive HBType where
  | inactive
  | polarh
  | trigonal
  | trigonalS
  | trigonalOOP
  | tetrahedral
  | other
deriving DecidableEq, Repr

/-- Per-class creator outcomes for one atom (see section comment). -/
structure WsCreatorOutcomes where
  ph : Option ℕ
  trigonal1 : Option ℕ
  trigonal2 : Option ℕ
  trigonalS : Option ℕ
  tetrahedral1 : Option ℕ
  tetrahedral2 : Option ℕ
  tetrahedral3 : Option ℕ

/-- The connectivity guard and result of `agbnp3_create_ws_atoms_trigonal_oop`
(libagbnp3.c, lines 3376-3449): an atom of the trigonal out-of-plane class
must have exactly three bonded neighbors, otherwise the creator returns
`AGBNP_ERR`; on success it writes two sites (`*nws = 2`). -/
def create_ws_atoms_trigonal_oop (nne : ℕ) : Option ℕ :=
  if nne ≠ 3 then none else some 2

/-- The water-site creation dispatcher `agbnp3_create_ws_ofatom`
(libagbnp3.c, lines 2476-2568) for an atom with hydrogen-bond class
`hbtype` and `nne` bonded neighbors: result `none` models `AGBNP_ERR`,
`some m` models `AGBNP_OK` with `*nws = m`.  For every class except the
trigonal out-of-plane one a creator failure is absorbed (`*nws = 0`,
`AGBNP_OK`); for the trigonal out-of-plane class the creator's error is
propagated. -/
def create_ws_ofatom (hbtype : HBType) (nne : ℕ)
    (oc : WsCreatorOutcomes) : Option ℕ :=
  match hbtype with
  | HBType.inactive => some 0
  | HBType.polarh =>
    match oc.ph with
    | none => some 0
    | some m => some m
  | HBType.trigonal =>
    if nne = 1 then
      match oc.trigonal1 with
      | none => some 0
      | some m => some m
    else if nne = 2 then
      match oc.trigonal2 with
      | none => some 0
      | some m => some m
    else some 0
  | HBType.trigonalS =>
    match oc.trigonalS with
    | none => some 0
    | some m => some m
  | HBType.trigonalOOP =>
    match create_ws_atoms_trigonal_oop nne with
    | none => none
    | some m => some m
  | HBType.tetrahedral =>
    if nne = 2 then
      match oc.tetrahedral2 with
      | none => some 0
      | some m => some m
    else if nne = 3 then
      match oc.tetrahedral3 with
      | none => some 0
      | some m => some m
    else if nne = 1 then
      match oc.tetrahedral1 with
      | none => some 0
      | some m => some m
    else some 0
  | HBType.other => some 0

/-- The creator call made by `agbnp3_create_ws_ofatom` for this class and
connectivity reported failure.  For the trigonal out-of-plane class the
failure condition is the connectivity guard of
`agbnp3_create_ws_atoms_trigonal_oop`; classes that call no creator
(`inactive`, the `default` case, and the `trigonal`/`tetrahedral` fall-
throughs) never fail. -/
def creatorFailed (hbtype : HBType) (nne : ℕ) (oc : WsCreatorOutcomes) : Prop :=
  match hbtype with
  | HBType.inactive => False
  | HBType.polarh => oc.ph = none
  | HBType.trigonal =>
    (nne = 1 ∧ oc.trigonal1 = none) ∨ (nne = 2 ∧ oc.trigonal2 = none)
  | HBType.trigonalS => oc.trigonalS = none
  | HBType.trigonalOOP => nne ≠ 3
  | HBType.tetrahedral =>
    (nne = 2 ∧ oc.tetrahedral2 = none) ∨ (nne = 3 ∧ oc.tetrahedral3 = none) ∨
      (nne = 1 ∧ oc.tetrahedral1 = none)
  | HBType.other => False

/-! ### Stage pipeline of agbnp3_total_energy (libagbnp3.c, lines 1809-2372)

Claim C1 is about the error-propagation control flow of the coordinator, not
about the numeric values produced by the stages, so the stage bodies are
abstracted: each stage contributes a success flag and (where the stage feeds
a caller-visible output) an abstract rational value.  The order of the
stages, the points at which the caller-visible output locations are written,
and the `goto ERROR` short-circuit are translated from the source. -/

/-- Success flags of the thirteen pipeline stages, in source order, together
with the abstract values the stage computations feed into the caller-visible
outputs. -/
structure StageResults where
  resetBuffersOk : Bool
  resetDerivativesOk : Bool
  neighborListsOk : Bool
  selfVolumesOk : Bool
  scalingFactorsOk : Bool
  inverseBornRadiiOk : Bool
  bornRadiiOk : Bool
  gbEnergyOk : Bool
  gbDersConstvpOk : Bool
  createWsatomsOk : Bool
  wsFreeVolumesOk : Bool
  gbDeruvOk : Bool
  derVpOk : Bool
  cavityDersgbOk : Bool
  ecavVal : ℚ
  ecorrCavVal : ℚ
  molVolumeVal : ℚ
  evdwVal : ℚ
  ecorrVdwVal : ℚ
  egbVal : ℚ
  ehbVal : ℚ
  dgbdrVal : ℚ
  dvwdrVal : ℚ
  decavVal : ℚ
  dehbVal : ℚ

/-- All stages succeeded (the `error` counter of the source stayed 0). -/
def stagesAllOk (s : StageResults) : Bool :=
  s.resetBuffersOk && s.resetDerivativesOk && s.neighborListsOk &&
  s.selfVolumesOk && s.scalingFactorsOk && s.inverseBornRadiiOk &&
  s.bornRadiiOk && s.gbEnergyOk && s.gbDersConstvpOk && s.createWsatomsOk &&
  s.wsFreeVolumesOk && s.gbDeruvOk && s.derVpOk && s.cavityDersgbOk

/-- The caller-visible output locations of `agbnp3_total_energy`: the seven
scalar outputs passed by pointer and the four per-atom derivative arrays
(`agb->dgbdr` etc., represented here by one abstract value each).  A field
holding `none` models a location not written by the evaluation. -/
structure EnergyOutputs where
  molVolume : Option ℚ
  egb : Option ℚ
  evdw : Option ℚ
  ecorrVdw : Option ℚ
  ecav : Option ℚ
  ecorrCav : Option ℚ
  ehb : Option ℚ
  dgbdr : Option ℚ
  dvwdr : Option ℚ
  decav : Option ℚ
  dehb : Option ℚ
deriving DecidableEq, Repr

/-- Output state with nothing written. -/
def noOutputs : EnergyOutputs :=
  ⟨none, none, none, none, none, none, none, none, none, none, none⟩

/-- The stage pipeline of `agbnp3_total_energy` (libagbnp3.c, lines
1888-2371): every stage call is followed by an error check jumping to the
`ERROR` label (after which the function returns `AGBNP_ERR` without reaching
the output-copy code at lines 2317-2342).  The cavity/volume outputs are
written between the scaling-factor and inverse-Born-radius stages (lines
1976-1996), the vdW outputs after the Born-radius stage (lines 2050-2071),
the GB energy after the GB-energy stage (lines 2095-2102); the derivative
arrays and `*ehb` are written only after all stages succeeded. -/
def totalEnergy (s : StageResults) : Retcode × EnergyOutputs :=
  if !s.resetBuffersOk then (Retcode.err, noOutputs)
  else if !s.resetDerivativesOk then (Retcode.err, noOutputs)
  else if !s.neighborListsOk then (Retcode.err, noOutputs)
  else if !s.selfVolumesOk then (Retcode.err, noOutputs)
  else if !s.scalingFactorsOk then (Retcode.err, noOutputs)
  else
    let out1 : EnergyOutputs :=
      { noOutputs with
        ecav := some s.ecavVal
        ecorrCav := some s.ecorrCavVal
        molVolume := some s.molVolumeVal }
    if !s.inverseBornRadiiOk then (Retcode.err, out1)
    else if !s.bornRadiiOk then (Retcode.err, out1)
    else
      let out2 : EnergyOutputs :=
        { out1 with evdw := some s.evdwVal, ecorrVdw := some s.ecorrVdwVal }
      if !s.gbEnergyOk then (Retcode.err, out2)
      else
        let out3 : EnergyOutputs := { out2 with egb := some s.egbVal }
        if !s.gbDersConstvpOk then (Retcode.err, out3)
        else if !s.createWsatomsOk then (Retcode.err, out3)
        else if !s.wsFreeVolumesOk then (Retcode.err, out3)
        else if !s.gbDeruvOk then (Retcode.err, out3)
        else if !s.derVpOk then (Retcode.err, out3)
        else if !s.cavityDersgbOk then (Retcode.err, out3)
        else
          (Retcode.ok,
            { out3 with
              ehb := some s.ehbVal
              dgbdr := some s.dgbdrVal
              dvwdr := some s.dvwdrVal
              decav := some s.decavVal
              dehb := some s.dehbVal })

/-- Stage results in which every stage succeeds except the water-site
creation stage, and every abstract stage value is 0 (used to exhibit the
behaviour of `agbnp3_total_energy` on a failing evaluation, claim C1). -/
def c1FailingStages : StageResults :=
  { resetBuffersOk := true
    resetDerivativesOk := true
    neighborListsOk := true
    selfVolumesOk := true
    scalingFactorsOk := true
    inverseBornRadiiOk := true
    bornRadiiOk := true
    gbEnergyOk := true
    gbDersConstvpOk := true
    createWsatomsOk := false
    wsFreeVolumesOk := true
    gbDeruvOk := true
    derVpOk := true
    cavityDersgbOk := true
    ecavVal := 0
    ecorrCavVal := 0
    molVolumeVal := 0
    evdwVal := 0
    ecorrVdwVal := 0
    egbVal := 0
    ehbVal := 0
    dgbdrVal := 0
    dvwdrVal := 0
    decavVal := 0
    dehbVal := 0 }

/-!
## Theorems
-/

/-- C4: each incremental Gaussian-overlap step of `agbnp3_ogauss_incremental`
merges exactly one additional atom's Gaussian into the current blob by the
closed-form two-Gaussian-product rule: the new exponent is the sum of the old
exponent and the new atom's exponent, the new center is the exponent-weighted
average of the old center and the new atom's position, and the new prefactor
is the product of the old prefactor and the new atom's prefactor times
`exp (-(a_old * a_new / (a_old + a_new)) * d^2)`, `d^2` being the squared
distance between the old center and the new atom's position. -/
theorem c4_ogauss_two_gaussian_product_rule (n : ℕ) (x : ℕ → Vec3)
    (a p r : ℕ → ℝ) (anm1 pnm1 : ℝ) (cnm1 : Vec3) (volmina volminb : ℝ)
    (wantDerivs : Bool) (h : 2 ≤ n) :
    ∃ o : OgaussOut,
      ogaussIncremental n x a p r anm1 pnm1 cnm1 volmina volminb wantDerivs =
        some o ∧
      o.an = anm1 + a (n - 1) ∧
      (∀ i, o.cn i =
        (anm1 * cnm1 i + a (n - 1) * x (n - 1) i) / (anm1 + a (n - 1))) ∧
      o.pn = pnm1 * p (n - 1) *
        Real.exp (-(anm1 * a (n - 1) / (anm1 + a (n - 1)) *
          ogaussD2 n x cnm1)) := by
  have hn : ¬ n < 2 := Nat.not_lt.mpr h
  refine ⟨_, by rw [ogaussIncremental, if_neg hn], rfl, fun i => ?_, ?_⟩
  · show (1 / ogaussDelta n a anm1) * (anm1 * cnm1 i + a (n - 1) * x (n - 1) i)
      = _
    rw [ogaussDelta]; ring
  · show pnm1 * p (n - 1) * Real.exp
      (-(anm1 * a (n - 1) * ogaussD2 n x cnm1 * (1 / ogaussDelta n a anm1)))
      = _
    rw [ogaussDelta]
    congr 1
    ring_nf

/-- Witness for C4 at a concrete input. -/
theorem c4_ogauss_two_gaussian_product_rule_witness :
    2 ≤ 2 ∧
    ∃ o : OgaussOut,
      ogaussIncremental 2 (fun _ _ => 0) (fun _ => 1) (fun _ => 1)
        (fun _ => 1) 1 1 (fun _ => 0) 1 2 false = some o ∧
      o.an = 1 + 1 ∧
      (∀ i, o.cn i = (1 * 0 + 1 * 0) / (1 + 1)) ∧
      o.pn = 1 * 1 *
        Real.exp (-(1 * 1 / (1 + 1) * ogaussD2 2 (fun _ _ => 0) (fun _ => 0))) :=
  ⟨by norm_num,
   c4_ogauss_two_gaussian_product_rule 2 (fun _ _ => 0) (fun _ => 1)
     (fun _ => 1) (fun _ => 1) 1 1 (fun _ => 0) 1 2 false (by norm_num)⟩

/-- C6: when the switched overlap volume underflows (`volp < FLT_MIN`),
`agbnp3_ogauss_incremental` returns exactly 0 and leaves the caller-supplied
derivative output arrays unwritten; this is a defined output of the
function, not an error return. -/
theorem c6_ogauss_underflow_returns_zero (n : ℕ) (x : ℕ → Vec3)
    (a p r : ℕ → ℝ) (anm1 pnm1 : ℝ) (cnm1 : Vec3) (volmina volminb : ℝ)
    (wantDerivs : Bool) (h : 2 ≤ n)
    (hu : ogaussVolp n x a p anm1 pnm1 cnm1 volmina volminb < fltMin) :
    ∃ o : OgaussOut,
      ogaussIncremental n x a p r anm1 pnm1 cnm1 volmina volminb wantDerivs =
        some o ∧
      o.ret = 0 ∧ o.derivs = none := by
  have hn : ¬ n < 2 := Nat.not_lt.mpr h
  refine ⟨_, by rw [ogaussIncremental, if_neg hn], ?_, ?_⟩
  · show (if ogaussVolp n x a p anm1 pnm1 cnm1 volmina volminb < fltMin
      then (0 : ℝ) else _) = 0
    rw [if_pos hu]
  · show (if ogaussVolp n x a p anm1 pnm1 cnm1 volmina volminb < fltMin
      then none else _) = none
    rw [if_pos hu]

/-- Witness for C6 at a concrete input (zero prefactor, so the merged volume
is 0, which the switching function maps to 0, below `FLT_MIN`). -/
theorem c6_ogauss_underflow_returns_zero_witness :
    (2 ≤ 2 ∧
      ogaussVolp 2 (fun _ _ => 0) (fun _ => 1) (fun _ => 0) 1 0
        (fun _ => 0) 1 2 < fltMin) ∧
    ∃ o : OgaussOut,
      ogaussIncremental 2 (fun _ _ => 0) (fun _ => 1) (fun _ => 0)
        (fun _ => 1) 1 0 (fun _ => 0) 1 2 true = some o ∧
      o.ret = 0 ∧ o.derivs = none := by
  have hvol : ogaussVol 2 (fun _ _ => 0) (fun _ => 1) (fun _ => 0) 1 0
      (fun _ => 0) = 0 := by
    rw [ogaussVol, ogaussPn]
    ring_nf
  have hu : ogaussVolp 2 (fun _ _ => 0) (fun _ => 1) (fun _ => 0) 1 0
      (fun _ => 0) 1 2 < fltMin := by
    rw [ogaussVolp, hvol, swf_vol3]
    norm_num [fltMin]
  exact ⟨⟨by norm_num, hu⟩,
    c6_ogauss_underflow_returns_zero 2 (fun _ _ => 0) (fun _ => 1)
      (fun _ => 0) (fun _ => 1) 1 0 (fun _ => 0) 1 2 true (by norm_num) hu⟩

/-- C3: in `agbnp3_ws_free_volume_of1` the depth-first Gaussian-overlap
enumeration accumulates contributions with sign alternating by recursion
depth (`volpcoeff k = (-1)^k`, so the contribution of a depth-`order`
overlap carries sign `(-1)^(order-1)`: depth 2 subtracted, depth 3 added,
and so on), the free volume starts at the site's nominal spherical volume,
and the expansion is silently truncated at `AGBNP_MAX_OVERLAP_LEVEL`: a step
at an order not below the maximum accumulates nothing, and the function
reports no error (it always returns `AGBNP_OK`). -/
theorem c3_ws_free_volume_alternating_truncated (dat : WSData)
    (st : WSVState) :
    ((wsStep dat st).freeVolume =
      st.freeVolume +
        (if fltMin < wsGvol dat st ∧ st.order < dat.maxLevel then
          volpcoeff (st.order - 1) * wsGvol dat st else 0)) ∧
    (∀ k, volpcoeff k = (-1 : ℝ) ^ k) ∧
    (∀ w, (wsInit dat w).freeVolume = w.volume) ∧
    (∀ fuel w, (wsFreeVolumeOf1 dat w fuel).2 = Retcode.ok) := by
  refine ⟨?_, ?_, fun w => rfl, fun fuel w => rfl⟩
  · unfold wsGvol
    by_cases hc : fltMin < ogaussRet (wsOverlap dat st) ∧ st.order < dat.maxLevel
    · rw [if_pos hc]
      simp only [wsStep]
      rw [if_pos hc]
    · rw [if_neg hc, add_zero]
      simp only [wsStep]
      rw [if_neg hc]
  · intro k
    induction k with
    | zero => rw [volpcoeff]; norm_num
    | succ k ih => rw [volpcoeff, ih]; ring

/-- C1 counterexample: the claim states that on a failing evaluation none of
the caller-visible output locations holds a value produced by the failed
evaluation; but when the water-site creation stage fails, the evaluation
returns `AGBNP_ERR` with the cavity, correction-cavity, molecular-volume,
vdW and GB outputs already written through the caller's pointers. -/
theorem c1_counterexample :
    stagesAllOk c1FailingStages = false ∧
    (totalEnergy c1FailingStages).1 = Retcode.err ∧
    (totalEnergy c1FailingStages).2.ecav = some 0 ∧
    (totalEnergy c1FailingStages).2.ecorrCav = some 0 ∧
    (totalEnergy c1FailingStages).2.molVolume = some 0 ∧
    (totalEnergy c1FailingStages).2.evdw = some 0 ∧
    (totalEnergy c1FailingStages).2.ecorrVdw = some 0 ∧
    (totalEnergy c1FailingStages).2.egb = some 0 := by
  decide

/-- C1 (amended): if any stage of the pipeline reports failure,
`agbnp3_total_energy` returns `AGBNP_ERR`, and the per-atom derivative
arrays and the hydrogen-bond energy output are not written by the failed
evaluation; the scalar energy outputs computed by stages that completed
before the failure (mol_volume, egb, evdw, ecorr_vdw, ecav, ecorr_cav) may,
however, retain values written during the failed evaluation. -/
theorem c1_error_short_circuit (s : StageResults)
    (h : stagesAllOk s = false) :
    (totalEnergy s).1 = Retcode.err ∧
    (totalEnergy s).2.dgbdr = none ∧
    (totalEnergy s).2.dvwdr = none ∧
    (totalEnergy s).2.decav = none ∧
    (totalEnergy s).2.dehb = none ∧
    (totalEnergy s).2.ehb = none := by
  simp only [totalEnergy]
  cases hb1 : s.resetBuffersOk with
  | false => exact ⟨rfl, rfl, rfl, rfl, rfl, rfl⟩
  | true =>
  cases hb2 : s.resetDerivativesOk with
  | false => exact ⟨rfl, rfl, rfl, rfl, rfl, rfl⟩
  | true =>
  cases hb3 : s.neighborListsOk with
  | false => exact ⟨rfl, rfl, rfl, rfl, rfl, rfl⟩
  | true =>
  cases hb4 : s.selfVolumesOk with
  | false => exact ⟨rfl, rfl, rfl, rfl, rfl, rfl⟩
  | true =>
  cases hb5 : s.scalingFactorsOk with
  | false => exact ⟨rfl, rfl, rfl, rfl, rfl, rfl⟩
  | true =>
  cases hb6 : s.inverseBornRadiiOk with
  | false => exact ⟨rfl, rfl, rfl, rfl, rfl, rfl⟩
  | true =>
  cases hb7 : s.bornRadiiOk with
  | false => exact ⟨rfl, rfl, rfl, rfl, rfl, rfl⟩
  | true =>
  cases hb8 : s.gbEnergyOk with
  | false => exact ⟨rfl, rfl, rfl, rfl, rfl, rfl⟩
  | true =>
  cases hb9 : s.gbDersConstvpOk with
  | false => exact ⟨rfl, rfl, rfl, rfl, rfl, rfl⟩
  | true =>
  cases hb10 : s.createWsatomsOk with
  | false => exact ⟨rfl, rfl, rfl, rfl, rfl, rfl⟩
  | true =>
  cases hb11 : s.wsFreeVolumesOk with
  | false => exact ⟨rfl, rfl, rfl, rfl, rfl, rfl⟩
  | true =>
  cases hb12 : s.gbDeruvOk with
  | false => exact ⟨rfl, rfl, rfl, rfl, rfl, rfl⟩
  | true =>
  cases hb13 : s.derVpOk with
  | false => exact ⟨rfl, rfl, rfl, rfl, rfl, rfl⟩
  | true =>
  cases hb14 : s.cavityDersgbOk with
  | false => exact ⟨rfl, rfl, rfl, rfl, rfl, rfl⟩
  | true =>
  exfalso
  rw [stagesAllOk, hb1, hb2, hb3, hb4, hb5, hb6, hb7, hb8, hb9, hb10, hb11, hb12, hb13, hb14] at h
  simp at h

/-- Witness for C1 (amended) at the concrete failing stage results. -/
theorem c1_error_short_circuit_witness :
    stagesAllOk c1FailingStages = false ∧
    ((totalEnergy c1FailingStages).1 = Retcode.err ∧
      (totalEnergy c1FailingStages).2.dgbdr = none ∧
      (totalEnergy c1FailingStages).2.dvwdr = none ∧
      (totalEnergy c1FailingStages).2.decav = none ∧
      (totalEnergy c1FailingStages).2.dehb = none ∧
      (totalEnergy c1FailingStages).2.ehb = none) :=
  ⟨by decide, c1_error_short_circuit c1FailingStages (by decide)⟩

/-- C8: when a per-class water-site creator reports failure during
`agbnp3_create_ws_ofatom`, the atom's contribution degrades to zero sites
with a success return (`*nws = 0`, `AGBNP_OK`) for every hydrogen-bond class
except the trigonal out-of-plane one; for an atom of class
`AGBNP_HB_TRIGONAL_OOP` whose connectivity differs from exactly three bonded
neighbors the creator's error propagates out of water-site creation
(`AGBNP_ERR`). -/
theorem c8_ws_creation_degrades_except_oop (hbtype : HBType) (nne : ℕ)
    (oc : WsCreatorOutcomes) (h : creatorFailed hbtype nne oc) :
    create_ws_ofatom hbtype nne oc =
      (if hbtype = HBType.trigonalOOP then none else some 0) := by
  cases hbtype with
  | inactive => exact absurd h id
  | polarh =>
    unfold creatorFailed at h
    simp [create_ws_ofatom, h]
  | trigonal =>
    unfold creatorFailed at h
    rcases h with ⟨h1, h2⟩ | ⟨h1, h2⟩ <;> subst h1 <;>
      simp [create_ws_ofatom, h2]
  | trigonalS =>
    unfold creatorFailed at h
    simp [create_ws_ofatom, h]
  | trigonalOOP =>
    unfold creatorFailed at h
    simp [create_ws_ofatom, create_ws_atoms_trigonal_oop, h]
  | tetrahedral =>
    unfold creatorFailed at h
    rcases h with ⟨h1, h2⟩ | ⟨h1, h2⟩ | ⟨h1, h2⟩ <;> subst h1 <;>
      simp [create_ws_ofatom, h2]
  | other => exact absurd h id

/-- Witness for C8: a trigonal out-of-plane atom with two bonded neighbors
(malformed topology) makes water-site creation fail. -/
theorem c8_ws_creation_degrades_except_oop_witness :
    creatorFailed HBType.trigonalOOP 2
      ⟨none, none, none, none, none, none, none⟩ ∧
    create_ws_ofatom HBType.trigonalOOP 2
        ⟨none, none, none, none, none, none, none⟩ =
      (if HBType.trigonalOOP = HBType.trigonalOOP then none else some 0) :=
  ⟨by unfold creatorFailed; decide,
   c8_ws_creation_degrades_except_oop HBType.trigonalOOP 2
     ⟨none, none, none, none, none, none, none⟩
     (by unfold creatorFailed; decide)⟩

/-- C5: cubic-spline table evaluation never extrapolates: for every query
whose bracketing index `k = x/dx` (truncated) exceeds `n - 2`, both the
scalar evaluator `agbnp3_cspline_interpolate` and the vectorized
structure-of-arrays variant `agbnp3_interpolate_ctablef42d_soa` return value
0 and derivative 0. -/
theorem c5_spline_no_extrapolation (x dx : ℚ) (n : ℕ) (y y2 : ℕ → ℚ)
    (t : C1Table) (x2 : ℚ)
    (h1 : ctrunc (x * (1 / dx)) > (n : ℤ) - 2)
    (h2 : ctrunc (x2 * t.dxinv) > (t.n : ℤ) - 2) :
    cspline_interpolate x dx n y y2 = (0, 0) ∧
    interpolate_ctablef42d_soa_elem t x2 = (0, 0) := by
  constructor
  · rw [cspline_interpolate]
    simp only [if_pos h1]
  · rw [interpolate_ctablef42d_soa_elem]
    simp only [if_pos h2]
    rw [cspline_interpolate_soa_elem]
    simp only [Prod.mk.injEq]
    constructor <;> ring

/-- Witness for C5 at a concrete out-of-range query. -/
theorem c5_spline_no_extrapolation_witness :
    (ctrunc (10 * (1 / 1)) > ((5 : ℕ) : ℤ) - 2 ∧
      ctrunc (10 * (⟨5, 1, 1, fun _ => 1, fun _ => 1⟩ : C1Table).dxinv) >
        (((⟨5, 1, 1, fun _ => 1, fun _ => 1⟩ : C1Table).n : ℕ) : ℤ) - 2) ∧
    (cspline_interpolate 10 1 5 (fun _ => 1) (fun _ => 1) = (0, 0) ∧
      interpolate_ctablef42d_soa_elem ⟨5, 1, 1, fun _ => 1, fun _ => 1⟩ 10 =
        (0, 0)) :=
  ⟨⟨by norm_num [ctrunc], by norm_num [ctrunc]⟩,
   c5_spline_no_extrapolation 10 1 5 (fun _ => 1) (fun _ => 1)
     ⟨5, 1, 1, fun _ => 1, fun _ => 1⟩ 10 (by norm_num [ctrunc])
     (by norm_num [ctrunc])⟩

/-- C2 counterexample: the Born radius is not bounded below by the floor
constant `a = 0.02`: a large raw inverse-radius sum (here 100) gives a
filtered inverse radius above `1/a`, hence a Born radius below `a`. -/
theorem c2_counterexample : ¬ invbrA ≤ bornRadius 100 := by
  have hnn : ¬ (100 : ℝ) < 0 := by norm_num
  have hval : (swf_invbr 100).1 =
      Real.sqrt (invbrA * invbrA + 100 * 100) := by
    rw [swf_invbr, if_neg hnn]
  have h100 : (100 : ℝ) ≤ Real.sqrt (invbrA * invbrA + 100 * 100) := by
    apply Real.le_sqrt_of_sq_le
    rw [invbrA]
    norm_num
  have hpos : (0 : ℝ) < Real.sqrt (invbrA * invbrA + 100 * 100) := by
    linarith
  have hlt : bornRadius 100 ≤ 1 / 100 := by
    rw [bornRadius, hval]
    exact one_div_le_one_div_of_le (by norm_num) h100
  rw [invbrA]
  intro hcontra
  linarith

/-- C2 (amended): the raw inverse-Born-radius filter `agbnp3_swf_invbr`
bounds its output below by the floor constant `a = 0.02` for every raw sum,
including pathological negative sums; consequently the Born radius produced
by `agbnp3_born_radii` is always positive and at most `1/a = 50` (the
documented maximum Born radius) — the floor constant bounds the filtered
inverse radius from below, and hence the Born radius from above, not from
below. -/
theorem c2_born_radius_bounds (beta : ℝ) :
    invbrA ≤ (swf_invbr beta).1 ∧ 0 < bornRadius beta ∧
    bornRadius beta ≤ 1 / invbrA := by
  have ha : (0 : ℝ) < invbrA := by rw [invbrA]; norm_num
  have hfloor : invbrA ≤ (swf_invbr beta).1 := by
    rw [swf_invbr]
    by_cases hb : beta < 0
    · rw [if_pos hb]
    · rw [if_neg hb]
      have h1 : invbrA = Real.sqrt (invbrA * invbrA) := by
        rw [show invbrA * invbrA = invbrA ^ 2 by ring, Real.sqrt_sq ha.le]
      calc invbrA = Real.sqrt (invbrA * invbrA) := h1
        _ ≤ Real.sqrt (invbrA * invbrA + beta * beta) := by
            apply Real.sqrt_le_sqrt
            nlinarith [sq_nonneg beta]
  have hpos : (0 : ℝ) < (swf_invbr beta).1 := lt_of_lt_of_le ha hfloor
  refine ⟨hfloor, ?_, ?_⟩
  · rw [bornRadius]
    positivity
  · rw [bornRadius]
    exact one_div_le_one_div_of_le ha hfloor

/-- The probe loop with stride 1 and a power-of-two mask stops at the first
position on the probe path (`k0, k0+1, ... mod 2^m`) satisfying the stop
condition, provided such a position exists within the fuel. -/
theorem hProbe_first_stop (key : ℕ → ℤ) (m keyij : ℕ) :
    ∀ fuel k0, k0 < 2 ^ m →
    (∃ i, i < fuel ∧ probeStop key keyij ((k0 + i) % 2 ^ m)) →
    ∃ i, i < fuel ∧
      hProbe key (2 ^ m - 1) 1 keyij fuel k0 = (k0 + i) % 2 ^ m ∧
      probeStop key keyij ((k0 + i) % 2 ^ m) ∧
      ∀ i' < i, ¬ probeStop key keyij ((k0 + i') % 2 ^ m) := by
  intro fuel
  induction fuel with
  | zero =>
    rintro k0 _ ⟨i, hi, _⟩
    omega
  | succ fuel ih =>
    intro k0 hk0 hex
    by_cases hstop : probeStop key keyij k0
    · refine ⟨0, Nat.succ_pos _, ?_, ?_, by omega⟩
      · rw [hProbe, if_neg hstop, add_zero, Nat.mod_eq_of_lt hk0]
      · rw [add_zero, Nat.mod_eq_of_lt hk0]
        exact hstop
    · have hcond : 0 ≤ key k0 ∧ key k0 ≠ (keyij : ℤ) := not_not.mp hstop
      have hstep : hProbe key (2 ^ m - 1) 1 keyij (fuel + 1) k0 =
          hProbe key (2 ^ m - 1) 1 keyij fuel ((k0 + 1) % 2 ^ m) := by
        rw [hProbe, if_pos hcond, Nat.and_pow_two_sub_one_eq_mod]
      have hk1 : (k0 + 1) % 2 ^ m < 2 ^ m :=
        Nat.mod_lt _ (pow_pos (by norm_num) m)
      have hshift : ∀ j, ((k0 + 1) % 2 ^ m + j) % 2 ^ m =
          (k0 + (j + 1)) % 2 ^ m := by
        intro j
        rw [Nat.mod_add_mod]
        congr 1
        omega
      obtain ⟨i, hi, hstopi⟩ := hex
      have hi0 : i ≠ 0 := by
        intro h0
        subst h0
        rw [add_zero, Nat.mod_eq_of_lt hk0] at hstopi
        exact hstop hstopi
      obtain ⟨i', rfl⟩ : ∃ i', i = i' + 1 := ⟨i - 1, by omega⟩
      have hex' : ∃ j, j < fuel ∧
          probeStop key keyij (((k0 + 1) % 2 ^ m + j) % 2 ^ m) :=
        ⟨i', by omega, by rw [hshift]; exact hstopi⟩
      obtain ⟨j, hj, heq, hstopj, hmin⟩ := ih ((k0 + 1) % 2 ^ m) hk1 hex'
      refine ⟨j + 1, by omega, ?_, ?_, ?_⟩
      · rw [hstep, heq, hshift]
      · rw [← hshift]
        exact hstopj
      · intro i'' hi''
        rcases Nat.eq_zero_or_pos i'' with h0 | hpos
        · subst h0
          rw [add_zero, Nat.mod_eq_of_lt hk0]
          exact hstop
        · obtain ⟨j', rfl⟩ : ∃ j', i'' = j' + 1 := ⟨i'' - 1, by omega⟩
          rw [← hshift]
          exact hmin j' (by omega)

/-- Positions on a stride-1 probe path of length `2^m` are distinct. -/
theorem probe_pos_inj (m k0 i1 i2 : ℕ) (h1 : i1 < 2 ^ m) (h2 : i2 < 2 ^ m)
    (he : (k0 + i1) % 2 ^ m = (k0 + i2) % 2 ^ m) : i1 = i2 := by
  have hmod : i1 % 2 ^ m = i2 % 2 ^ m :=
    Nat.ModEq.add_left_cancel' k0 he
  rw [Nat.mod_eq_of_lt h1, Nat.mod_eq_of_lt h2] at hmod
  exact hmod

/-- A stride-1 probe path of length `2^m` visits every slot. -/
theorem probe_pos_surj (m k0 j : ℕ) (hk0 : k0 < 2 ^ m) (hj : j < 2 ^ m) :
    ∃ i, i < 2 ^ m ∧ (k0 + i) % 2 ^ m = j := by
  refine ⟨(j + 2 ^ m - k0) % 2 ^ m, Nat.mod_lt _ (pow_pos (by norm_num) m), ?_⟩
  rw [Nat.add_mod_mod, show k0 + (j + 2 ^ m - k0) = j + 2 ^ m by omega,
    Nat.add_mod_right, Nat.mod_eq_of_lt hj]

/-- The comparator `agbnp3_fcompare` reports "not greater" exactly for the
lexicographic order on (value, index). -/
theorem fcompare_nonpos_iff (val : ℕ → ℚ) (i j : ℕ) :
    fcompare val i j ≤ 0 ↔ val i < val j ∨ (val i = val j ∧ i ≤ j) := by
  unfold fcompare
  split_ifs with h1 h2 h3 h4
  · exact iff_of_true (by norm_num) (Or.inl h1)
  · refine iff_of_false (by norm_num) ?_
    rintro (h | ⟨he, _⟩)
    · exact absurd h h1
    · exact absurd he (ne_of_gt h2)
  · exact iff_of_true (by norm_num)
      (Or.inr ⟨le_antisymm (not_lt.mp h2) (not_lt.mp h1), le_of_lt h3⟩)
  · refine iff_of_false (by norm_num) ?_
    rintro (h | ⟨_, hle⟩)
    · exact absurd h h1
    · exact absurd hle (not_le.mpr h4)
  · exact iff_of_true le_rfl
      (Or.inr ⟨le_antisymm (not_lt.mp h2) (not_lt.mp h1), by omega⟩)

/-- Transitivity of the comparator's "not greater" relation. -/
theorem fcompare_le_trans (val : ℕ → ℚ) (a b c : ℕ)
    (h1 : fcompare val a b ≤ 0) (h2 : fcompare val b c ≤ 0) :
    fcompare val a c ≤ 0 := by
  rw [fcompare_nonpos_iff] at h1 h2 ⊢
  rcases h1 with h1 | ⟨e1, l1⟩ <;> rcases h2 with h2 | ⟨e2, l2⟩
  · exact Or.inl (lt_trans h1 h2)
  · exact Or.inl (e2 ▸ h1)
  · exact Or.inl (e1 ▸ h2)
  · exact Or.inr ⟨e1.trans e2, le_trans l1 l2⟩

/-- Totality of the comparator's "not greater" relation. -/
theorem fcompare_le_total (val : ℕ → ℚ) (a b : ℕ) :
    fcompare val a b ≤ 0 ∨ fcompare val b a ≤ 0 := by
  rw [fcompare_nonpos_iff, fcompare_nonpos_iff]
  rcases lt_trichotomy (val a) (val b) with h | h | h
  · exact Or.inl (Or.inl h)
  · rcases le_total a b with hab | hab
    · exact Or.inl (Or.inr ⟨h, hab⟩)
    · exact Or.inr (Or.inr ⟨h.symm, hab⟩)
  · exact Or.inr (Or.inl h)

/-- C7: after neighbor-list construction, the near-neighbor sublist of every
heavy atom is sorted in ascending order of squared distance to that atom,
with ties broken by the original atom index.  (In the functional embedding
the list is a value, so the ordering persists unchanged for the rest of the
evaluation.) -/
theorem c7_near_list_sorted (nheavyat iat : ℕ) (x y z r : ℕ → ℚ)
    (nboffset : ℚ) :
    List.Pairwise
      (fun j1 j2 => dist2 x y z iat j1 < dist2 x y z iat j2 ∨
        (dist2 x y z iat j1 = dist2 x y z iat j2 ∧ j1 < j2))
      (nearList nheavyat iat x y z r nboffset) := by
  simp only [nearList]
  set coll := collectedNeighbors nheavyat iat x y z r nboffset with hcoll
  set val : ℕ → ℚ := fun m => dist2 x y z iat (coll.getD m 0) with hval
  have hsorted : (fsortindx coll.length val).Pairwise
      (fun i j => decide (fcompare val i j ≤ 0) = true) := by
    rw [fsortindx]
    exact List.sorted_mergeSort
      (fun a b c hab hbc => by
        simp only [decide_eq_true_eq] at hab hbc ⊢
        exact fcompare_le_trans val a b c hab hbc)
      (fun a b => by
        simp only [Bool.or_eq_true, decide_eq_true_eq]
        exact fcompare_le_total val a b)
      (List.range coll.length)
  have hnodup : (fsortindx coll.length val).Nodup := by
    rw [fsortindx]
    exact ((List.mergeSort_perm (List.range coll.length) _).symm.nodup_iff).mp
      (List.nodup_range coll.length)
  have hmem : ∀ m ∈ fsortindx coll.length val, m < coll.length := by
    intro m hm
    rw [fsortindx, List.mem_mergeSort] at hm
    exact List.mem_range.mp hm
  have hcollSorted : coll.Pairwise (· < ·) := by
    rw [hcoll, collectedNeighbors]
    exact List.Pairwise.filter _ (List.pairwise_lt_range' _ _)
  have hmono : ∀ m1 m2, m1 < m2 → m2 < coll.length →
      coll.getD m1 0 < coll.getD m2 0 := by
    intro m1 m2 h12 h2
    have h1 : m1 < coll.length := lt_trans h12 h2
    rw [List.getD_eq_getElem coll 0 h1, List.getD_eq_getElem coll 0 h2]
    exact List.pairwise_iff_get.mp hcollSorted ⟨m1, h1⟩ ⟨m2, h2⟩ h12
  have hs' : (fsortindx coll.length val).Pairwise
      (fun i j => fcompare val i j ≤ 0) :=
    hsorted.imp (fun hab => by simpa using hab)
  refine List.pairwise_map.mpr (List.Pairwise.imp_of_mem ?_ (hs'.and hnodup))
  intro a b ha hb hab
  rcases (fcompare_nonpos_iff val a b).mp hab.1 with hlt | ⟨heq, hle⟩
  · exact Or.inl hlt
  · exact Or.inr ⟨heq, hmono a b (lt_of_le_of_ne hle hab.2) (hmem b hb)⟩

/-- C10: hash-table round trip for the spline-table cache (stride-1 probing
on a power-of-two table, as created by `agbnp3_h_create` for the cache): on
a table with at least one empty slot, `agbnp3_h_enter` stores the
(non-negative) key in the slot it returns, a subsequent `agbnp3_h_find` for
that key returns the same slot, and `agbnp3_h_find` returns `-1` for any key
not present in the table. -/
theorem c10_hash_round_trip (ht : HTable) (m keyij key2 : ℕ)
    (hsize : ht.hsize = 2 ^ m) (hmask : ht.hmask = ht.hsize - 1)
    (hjump : ht.hjump = 1)
    (hempty : ∃ j, j < ht.hsize ∧ ht.key j < 0)
    (hnever : ∀ j, j < ht.hsize → ht.key j ≠ (key2 : ℤ)) :
    (hEnter ht keyij).2.key (hEnter ht keyij).1 = (keyij : ℤ) ∧
    hFind (hEnter ht keyij).2 keyij = ((hEnter ht keyij).1 : ℤ) ∧
    hFind ht key2 = -1 := by
  have hspos : 0 < 2 ^ m := pow_pos (by norm_num) m
  rw [hsize] at hmask
  obtain ⟨je, hje, hjneg⟩ := hempty
  rw [hsize] at hje
  -- the probe start for keyij
  have hk0lt : keyij % 2 ^ m < 2 ^ m := Nat.mod_lt _ hspos
  have hslot_unfold : hSlot ht keyij =
      hProbe ht.key (2 ^ m - 1) 1 keyij (2 ^ m) (keyij % 2 ^ m) := by
    rw [hSlot, hmask, hjump, hsize, Nat.and_pow_two_sub_one_eq_mod]
  -- existence of a stopping position for the keyij probe
  obtain ⟨ie, hie, hieq⟩ := probe_pos_surj m (keyij % 2 ^ m) je hk0lt hje
  have hexists1 : ∃ i, i < 2 ^ m ∧
      probeStop ht.key keyij ((keyij % 2 ^ m + i) % 2 ^ m) :=
    ⟨ie, hie, by
      rw [hieq]
      exact fun hc => absurd hc.1 (not_le.mpr hjneg)⟩
  obtain ⟨i0, hi0, hslot_eq, hstop0, hmin0⟩ :=
    hProbe_first_stop ht.key m keyij (2 ^ m) (keyij % 2 ^ m) hk0lt hexists1
  have hklt : (keyij % 2 ^ m + i0) % 2 ^ m < 2 ^ m := Nat.mod_lt _ hspos
  have henter1 : (hEnter ht keyij).1 = (keyij % 2 ^ m + i0) % 2 ^ m := by
    rw [hEnter, hslot_unfold, hslot_eq]
  have henterkey : (hEnter ht keyij).2.key =
      Function.update ht.key ((keyij % 2 ^ m + i0) % 2 ^ m) (keyij : ℤ) := by
    rw [hEnter]
    simp only
    rw [hslot_unfold, hslot_eq]
  have hkeyk : (hEnter ht keyij).2.key ((keyij % 2 ^ m + i0) % 2 ^ m) =
      (keyij : ℤ) := by
    rw [henterkey, Function.update_same]
  refine ⟨by rw [henter1]; exact hkeyk, ?_, ?_⟩
  · -- find after enter returns the same slot
    have hslot_unfold' : hSlot (hEnter ht keyij).2 keyij =
        hProbe (hEnter ht keyij).2.key (2 ^ m - 1) 1 keyij (2 ^ m)
          (keyij % 2 ^ m) := by
      rw [hSlot]
      have h1 : (hEnter ht keyij).2.hmask = ht.hmask := rfl
      have h2 : (hEnter ht keyij).2.hjump = ht.hjump := rfl
      have h3 : (hEnter ht keyij).2.hsize = ht.hsize := rfl
      rw [h1, h2, h3, hmask, hjump, hsize, Nat.and_pow_two_sub_one_eq_mod]
    have hstopk : probeStop (hEnter ht keyij).2.key keyij
        ((keyij % 2 ^ m + i0) % 2 ^ m) := by
      intro hc
      exact hc.2 (by rw [hkeyk])
    obtain ⟨i1, hi1, hslot1, hstop1, hmin1⟩ :=
      hProbe_first_stop (hEnter ht keyij).2.key m keyij (2 ^ m)
        (keyij % 2 ^ m) hk0lt ⟨i0, hi0, hstopk⟩
    have hi10 : i1 = i0 := by
      rcases Nat.lt_trichotomy i1 i0 with hlt | heq | hgt
      · exfalso
        have hne : (keyij % 2 ^ m + i1) % 2 ^ m ≠
            (keyij % 2 ^ m + i0) % 2 ^ m := by
          intro hcon
          exact absurd (probe_pos_inj m (keyij % 2 ^ m) i1 i0
            (lt_trans hlt hi0) hi0 hcon) (Nat.ne_of_lt hlt)
        have hsame : (hEnter ht keyij).2.key
            ((keyij % 2 ^ m + i1) % 2 ^ m) =
            ht.key ((keyij % 2 ^ m + i1) % 2 ^ m) := by
          rw [henterkey, Function.update_noteq hne]
        refine hmin0 i1 hlt ?_
        unfold probeStop at hstop1 ⊢
        rw [hsame] at hstop1
        exact hstop1
      · exact heq
      · exact absurd hstopk (hmin1 i0 hgt)
    have hfindslot : hSlot (hEnter ht keyij).2 keyij =
        (keyij % 2 ^ m + i0) % 2 ^ m := by
      rw [hslot_unfold', hslot1, hi10]
    rw [hFind]
    simp only [hfindslot, hkeyk, henter1]
    rw [if_neg (not_lt.mpr (Int.natCast_nonneg keyij))]
  · -- find of a never-entered key returns -1
    have hk0lt2 : key2 % 2 ^ m < 2 ^ m := Nat.mod_lt _ hspos
    have hslot_unfold2 : hSlot ht key2 =
        hProbe ht.key (2 ^ m - 1) 1 key2 (2 ^ m) (key2 % 2 ^ m) := by
      rw [hSlot, hmask, hjump, hsize, Nat.and_pow_two_sub_one_eq_mod]
    obtain ⟨if2, hif2, hifeq⟩ := probe_pos_surj m (key2 % 2 ^ m) je hk0lt2 hje
    have hexists2 : ∃ i, i < 2 ^ m ∧
        probeStop ht.key key2 ((key2 % 2 ^ m + i) % 2 ^ m) :=
      ⟨if2, hif2, by
        rw [hifeq]
        exact fun hc => absurd hc.1 (not_le.mpr hjneg)⟩
    obtain ⟨i2, hi2, hslot2, hstop2, _⟩ :=
      hProbe_first_stop ht.key m key2 (2 ^ m) (key2 % 2 ^ m) hk0lt2 hexists2
    have hk2lt : (key2 % 2 ^ m + i2) % 2 ^ m < 2 ^ m := Nat.mod_lt _ hspos
    have hne2 : ht.key ((key2 % 2 ^ m + i2) % 2 ^ m) ≠ (key2 : ℤ) :=
      hnever _ (by rw [hsize]; exact hk2lt)
    have hneg2 : ht.key ((key2 % 2 ^ m + i2) % 2 ^ m) < 0 := by
      by_contra hge
      exact hstop2 ⟨not_lt.mp hge, hne2⟩
    rw [hFind]
    simp only [hslot_unfold2, hslot2]
    rw [if_pos hneg2]

/-- Witness for C10 on a concrete freshly initialized table of size 4. -/
theorem c10_hash_round_trip_witness :
    ((hInit ⟨4, 3, 1, fun _ => 0⟩).hsize = 2 ^ 2 ∧
      (hInit ⟨4, 3, 1, fun _ => 0⟩).hmask = (hInit ⟨4, 3, 1, fun _ => 0⟩).hsize - 1 ∧
      (hInit ⟨4, 3, 1, fun _ => 0⟩).hjump = 1 ∧
      (∃ j, j < (hInit ⟨4, 3, 1, fun _ => 0⟩).hsize ∧
        (hInit ⟨4, 3, 1, fun _ => 0⟩).key j < 0) ∧
      (∀ j, j < (hInit ⟨4, 3, 1, fun _ => 0⟩).hsize →
        (hInit ⟨4, 3, 1, fun _ => 0⟩).key j ≠ ((7 : ℕ) : ℤ))) ∧
    ((hEnter (hInit ⟨4, 3, 1, fun _ => 0⟩) 5).2.key
        (hEnter (hInit ⟨4, 3, 1, fun _ => 0⟩) 5).1 = ((5 : ℕ) : ℤ) ∧
      hFind (hEnter (hInit ⟨4, 3, 1, fun _ => 0⟩) 5).2 5 =
        ((hEnter (hInit ⟨4, 3, 1, fun _ => 0⟩) 5).1 : ℤ) ∧
      hFind (hInit ⟨4, 3, 1, fun _ => 0⟩) 7 = -1) :=
  ⟨⟨rfl, rfl, rfl, ⟨0, by norm_num [hInit]⟩, fun j _ => by norm_num [hInit]⟩,
   c10_hash_round_trip (hInit ⟨4, 3, 1, fun _ => 0⟩) 2 5 7 rfl rfl rfl
     ⟨0, by norm_num [hInit]⟩ (fun j _ => by norm_num [hInit])⟩

/-- C9: for a polar-hydrogen donor (hydrogen at `xh` bonded to heavy atom
`xd`, distinct positions), the water site constructed by
`agbnp3_place_wat_hydrogen` lies exactly on the ray from the donor through
the hydrogen at distance `d` from the donor, the two 3x3 position-derivative
blocks sum to the identity matrix, and translating both parents by a common
vector translates the site by that vector. -/
theorem c9_place_wat_hydrogen_geometry (xd xh : Vec3) (d : ℝ) (t : Vec3)
    (hne : xh ≠ xd) (hd : 0 < d) :
    (∃ w : ℝ, 0 < w ∧
      ∀ i, (place_wat_hydrogen xd xh d).1 i - xd i = w * (xh i - xd i)) ∧
    Real.sqrt (((place_wat_hydrogen xd xh d).1 0 - xd 0) ^ 2 +
        ((place_wat_hydrogen xd xh d).1 1 - xd 1) ^ 2 +
        ((place_wat_hydrogen xd xh d).1 2 - xd 2) ^ 2) = d ∧
    (∀ i j, (place_wat_hydrogen xd xh d).2.1 i j +
        (place_wat_hydrogen xd xh d).2.2 i j = if i = j then 1 else 0) ∧
    (∀ i,
      (place_wat_hydrogen (fun k => xd k + t k) (fun k => xh k + t k) d).1 i =
        (place_wat_hydrogen xd xh d).1 i + t i) := by
  have hd2 : 0 < (xh 0 - xd 0) * (xh 0 - xd 0) +
      (xh 1 - xd 1) * (xh 1 - xd 1) + (xh 2 - xd 2) * (xh 2 - xd 2) := by
    by_contra hcon
    push_neg at hcon
    have h00 : (xh 0 - xd 0) * (xh 0 - xd 0) = 0 :=
      le_antisymm
        (by nlinarith [mul_self_nonneg (xh 1 - xd 1),
          mul_self_nonneg (xh 2 - xd 2)])
        (mul_self_nonneg _)
    have h11 : (xh 1 - xd 1) * (xh 1 - xd 1) = 0 :=
      le_antisymm
        (by nlinarith [mul_self_nonneg (xh 0 - xd 0),
          mul_self_nonneg (xh 2 - xd 2)])
        (mul_self_nonneg _)
    have h22 : (xh 2 - xd 2) * (xh 2 - xd 2) = 0 :=
      le_antisymm
        (by nlinarith [mul_self_nonneg (xh 0 - xd 0),
          mul_self_nonneg (xh 1 - xd 1)])
        (mul_self_nonneg _)
    have e0 : xh 0 = xd 0 := sub_eq_zero.mp (mul_self_eq_zero.mp h00)
    have e1 : xh 1 = xd 1 := sub_eq_zero.mp (mul_self_eq_zero.mp h11)
    have e2 : xh 2 = xd 2 := sub_eq_zero.mp (mul_self_eq_zero.mp h22)
    exact hne (funext fun i => by fin_cases i <;> assumption)
  have h1d2 : 0 < 1 / ((xh 0 - xd 0) * (xh 0 - xd 0) +
      (xh 1 - xd 1) * (xh 1 - xd 1) + (xh 2 - xd 2) * (xh 2 - xd 2)) :=
    one_div_pos.mpr hd2
  have hs : 0 < Real.sqrt (1 / ((xh 0 - xd 0) * (xh 0 - xd 0) +
      (xh 1 - xd 1) * (xh 1 - xd 1) + (xh 2 - xd 2) * (xh 2 - xd 2))) :=
    Real.sqrt_pos.mpr h1d2
  have hw : 0 < d * Real.sqrt (1 / ((xh 0 - xd 0) * (xh 0 - xd 0) +
      (xh 1 - xd 1) * (xh 1 - xd 1) + (xh 2 - xd 2) * (xh 2 - xd 2))) :=
    mul_pos hd hs
  refine ⟨⟨d * Real.sqrt (1 / ((xh 0 - xd 0) * (xh 0 - xd 0) +
      (xh 1 - xd 1) * (xh 1 - xd 1) + (xh 2 - xd 2) * (xh 2 - xd 2))),
      hw, fun i => ?_⟩, ?_, ?_, ?_⟩
  · simp only [place_wat_hydrogen]
    ring
  · simp only [place_wat_hydrogen]
    rw [show (xd 0 + d * Real.sqrt (1 / ((xh 0 - xd 0) * (xh 0 - xd 0) +
          (xh 1 - xd 1) * (xh 1 - xd 1) + (xh 2 - xd 2) * (xh 2 - xd 2))) *
          (xh 0 - xd 0) - xd 0) ^ 2 +
        (xd 1 + d * Real.sqrt (1 / ((xh 0 - xd 0) * (xh 0 - xd 0) +
          (xh 1 - xd 1) * (xh 1 - xd 1) + (xh 2 - xd 2) * (xh 2 - xd 2))) *
          (xh 1 - xd 1) - xd 1) ^ 2 +
        (xd 2 + d * Real.sqrt (1 / ((xh 0 - xd 0) * (xh 0 - xd 0) +
          (xh 1 - xd 1) * (xh 1 - xd 1) + (xh 2 - xd 2) * (xh 2 - xd 2))) *
          (xh 2 - xd 2) - xd 2) ^ 2 =
        (d * Real.sqrt (1 / ((xh 0 - xd 0) * (xh 0 - xd 0) +
          (xh 1 - xd 1) * (xh 1 - xd 1) + (xh 2 - xd 2) * (xh 2 - xd 2)))) ^ 2 *
        ((xh 0 - xd 0) * (xh 0 - xd 0) + (xh 1 - xd 1) * (xh 1 - xd 1) +
          (xh 2 - xd 2) * (xh 2 - xd 2)) from by ring]
    rw [Real.sqrt_mul (sq_nonneg _), Real.sqrt_sq hw.le, mul_assoc,
      ← Real.sqrt_mul h1d2.le, one_div_mul_cancel hd2.ne', Real.sqrt_one,
      mul_one]
  · intro i j
    simp only [place_wat_hydrogen]
    by_cases hij : i = j
    · subst hij
      simp only [eq_self_iff_true, if_true]
      ring
    · simp only [if_neg hij]
      ring
  · intro i
    simp only [place_wat_hydrogen, add_sub_add_right_eq_sub]
    ring

/-- Witness for C9 at a concrete input: donor at the origin, hydrogen on the
first axis, hydrogen-bond distance 2, translation by the all-ones vector. -/
theorem c9_place_wat_hydrogen_geometry_witness :
    ((fun i : Fin 3 => if i = 0 then (1 : ℝ) else 0) ≠ (fun _ : Fin 3 => 0) ∧
      (0 : ℝ) < 2) ∧
    ((∃ w : ℝ, 0 < w ∧
      ∀ i, (place_wat_hydrogen (fun _ => 0)
          (fun i => if i = 0 then 1 else 0) 2).1 i - (fun _ : Fin 3 => (0 : ℝ)) i =
        w * ((fun i : Fin 3 => if i = 0 then (1 : ℝ) else 0) i -
          (fun _ : Fin 3 => (0 : ℝ)) i)) ∧
    Real.sqrt (((place_wat_hydrogen (fun _ => 0)
          (fun i => if i = 0 then 1 else 0) 2).1 0 - (fun _ : Fin 3 => (0 : ℝ)) 0) ^ 2 +
        ((place_wat_hydrogen (fun _ => 0)
          (fun i => if i = 0 then 1 else 0) 2).1 1 - (fun _ : Fin 3 => (0 : ℝ)) 1) ^ 2 +
        ((place_wat_hydrogen (fun _ => 0)
          (fun i => if i = 0 then 1 else 0) 2).1 2 - (fun _ : Fin 3 => (0 : ℝ)) 2) ^ 2) = 2 ∧
    (∀ i j, (place_wat_hydrogen (fun _ => 0)
          (fun i => if i = 0 then 1 else 0) 2).2.1 i j +
        (place_wat_hydrogen (fun _ => 0)
          (fun i => if i = 0 then 1 else 0) 2).2.2 i j = if i = j then 1 else 0) ∧
    (∀ i,
      (place_wat_hydrogen (fun k => (fun _ : Fin 3 => (0 : ℝ)) k + (fun _ : Fin 3 => (1 : ℝ)) k)
          (fun k => (fun i : Fin 3 => if i = 0 then (1 : ℝ) else 0) k +
            (fun _ : Fin 3 => (1 : ℝ)) k) 2).1 i =
        (place_wat_hydrogen (fun _ => 0)
          (fun i => if i = 0 then 1 else 0) 2).1 i + (fun _ : Fin 3 => (1 : ℝ)) i)) :=
  ⟨⟨fun h => by
      have h0 := congrFun h 0
      norm_num at h0, by norm_num⟩,
   c9_place_wat_hydrogen_geometry (fun _ => 0)
     (fun i => if i = 0 then 1 else 0) 2 (fun _ => 1)
     (fun h => by
       have h0 := congrFun h 0
       norm_num at h0) (by norm_num)⟩

end AGBNP3
